import Mathlib

/-
Verification of the `init-with` crate (src/src/lib.rs).

The crate defines a trait `InitWith<T>` with two constructors, implemented for
arrays `[T; N]` for N = 0 .. 32 by the macro `array_init!`:

  fn init_with<F: FnMut() -> T>(mut init: F) -> Self { [init(), init(), ...] }
  fn init_with_indices<F: FnMut(usize) -> T>(mut init: F) -> Self
      { [init(0), init(1), ...] }   -- via build_incrementing_list!

A Rust array expression evaluates its operand calls left to right, so the call
that fills slot 0 runs first, and slot i receives the result of the i-th call.
An `FnMut` closure carrying mutable captured state is embedded as a
state-passing function `gen : sigma -> T × sigma`: invoking the closure in state
`s` yields the produced value `(gen s).1` and the updated state `(gen s).2`.
The resulting array of length n is embedded as a `List T` of length n.
-/

/-- Embedding of `<[T; n]>::init_with(gen)` from src/src/lib.rs lines 116-120
(the n-element Rust array expression with one generator call per slot,
evaluated left to right), together with the generator state after all calls. -/
def initWith {σ T : Type} : Nat → (σ → T × σ) → σ → List T × σ
  | 0, _, s => ([], s)
  | n + 1, gen, s =>
    let p := gen s
    let q := initWith n gen p.2
    (p.1 :: q.1, q.2)

/-- Embedding of the expansion of `build_incrementing_list!` (src/src/lib.rs
lines 165-172) starting at index `i` with `n` calls remaining: the Rust array
expression `[gen(i), gen(i+1), ..., gen(i+n-1)]`, evaluated left to right. -/
def initWithIndicesFrom {σ T : Type} : Nat → Nat → (σ → Nat → T × σ) → σ → List T × σ
  | _, 0, _, s => ([], s)
  | i, n + 1, gen, s =>
    let p := gen s i
    let q := initWithIndicesFrom (i + 1) n gen p.2
    (p.1 :: q.1, q.2)

/-- Embedding of `<[T; n]>::init_with_indices(gen)` from src/src/lib.rs lines
122-126: `build_incrementing_list!` starts the index count at 0. -/
def initWithIndices {σ T : Type} (n : Nat) (gen : σ → Nat → T × σ) (s : σ) : List T × σ :=
  initWithIndicesFrom 0 n gen s

/-- The generator state just before its i-th invocation (0-based), when
construction starts in state `s`. -/
def genState {σ T : Type} (gen : σ → T × σ) (s : σ) (i : Nat) : σ :=
  (fun t => (gen t).2)^[i] s

/-- The value produced by the i-th generator invocation (0-based). -/
def genValue {σ T : Type} (gen : σ → T × σ) (s : σ) (i : Nat) : T :=
  (gen (genState gen s i)).1

theorem initWith_fst_length {σ T : Type} (gen : σ → T × σ) :
    ∀ (n : Nat) (s : σ), (initWith n gen s).1.length = n := by
  intro n
  induction n with
  | zero => intro s; rfl
  | succ m ih => intro s; simp [initWith, ih]

theorem initWith_snd {σ T : Type} (gen : σ → T × σ) :
    ∀ (n : Nat) (s : σ), (initWith n gen s).2 = (fun t => (gen t).2)^[n] s := by
  intro n
  induction n with
  | zero => intro s; rfl
  | succ m ih =>
    intro s
    show (initWith m gen (gen s).2).2 = _
    rw [ih, Function.iterate_succ_apply]

theorem initWith_getElem {σ T : Type} (gen : σ → T × σ) :
    ∀ (n : Nat) (s : σ) (i : Nat), i < n →
      (initWith n gen s).1[i]? = some (genValue gen s i) := by
  intro n
  induction n with
  | zero => intro s i h; exact absurd h (Nat.not_lt_zero i)
  | succ m ih =>
    intro s i h
    match i with
    | 0 =>
      show ((gen s).1 :: (initWith m gen (gen s).2).1)[0]? = _
      rw [List.getElem?_cons_zero]
      rfl
    | j + 1 =>
      have hj : j < m := Nat.lt_of_succ_lt_succ h
      show ((gen s).1 :: (initWith m gen (gen s).2).1)[j + 1]? = _
      rw [List.getElem?_cons_succ, ih (gen s).2 j hj]
      simp [genValue, genState, Function.iterate_succ_apply]

/-- Claim C1: for every supported length n (0-32) and every possibly stateful
generator, `init_with` returns an array of length n whose slot i holds exactly
the value produced by the i-th generator invocation; in particular the constant
generator returning 4 gives [4, 4, 4] for n = 3, and a counter-incrementing
generator starting at 0 gives [0, 1, 2] for n = 3. -/
theorem c1_init_with_contents {σ T : Type} (gen : σ → T × σ) (s : σ) (n : Nat)
    (_hn : n ≤ 32) :
    ((initWith n gen s).1.length = n
      ∧ ∀ i : Nat, i < n → (initWith n gen s).1[i]? = some (genValue gen s i))
    ∧ (initWith 3 (fun _ : Unit => (4, ())) ()).1 = [4, 4, 4]
    ∧ (initWith 3 (fun c : Nat => (c, c + 1)) 0).1 = [0, 1, 2] :=
  ⟨⟨initWith_fst_length gen n s, fun i hi => initWith_getElem gen n s i hi⟩, rfl, rfl⟩

/-- Witness for C1 at n = 3 with the counter generator. -/
theorem c1_witness :
    (initWith 3 (fun c : Nat => (c, c + 1)) 0).1.length = 3
    ∧ (initWith 3 (fun c : Nat => (c, c + 1)) 0).1 = [0, 1, 2] :=
  ⟨(c1_init_with_contents (fun c : Nat => (c, c + 1)) 0 3 (by decide)).1.1,
   (c1_init_with_contents (fun c : Nat => (c, c + 1)) 0 3 (by decide)).2.2⟩

/-- A generator wrapped so that its state also counts how many times it has
been invoked: instrumentation for the invocation-count properties. -/
def countCalls {σ T : Type} (gen : σ → T × σ) : σ × Nat → T × (σ × Nat) :=
  fun p => ((gen p.1).1, ((gen p.1).2, p.2 + 1))

theorem initWith_countCalls {σ T : Type} (gen : σ → T × σ) :
    ∀ (n : Nat) (s : σ) (c : Nat),
      (initWith n (countCalls gen) (s, c)).2.2 = c + n := by
  intro n
  induction n with
  | zero => intro s c; rfl
  | succ m ih =>
    intro s c
    show (initWith m (countCalls gen) ((gen s).2, c + 1)).2.2 = _
    rw [ih (gen s).2 (c + 1)]
    omega

/-- Claim C2: for every supported length n (0-32) and every generator,
`init_with` invokes the generator exactly n times, sequentially: the result has
n slots, the final generator state is the n-fold iterate of one invocation step
(so invocation i+1 starts from the state invocation i returned), and a
call-counting instrumentation of the generator ends at count n (0 for n = 0). -/
theorem c2_invocation_count {σ T : Type} (gen : σ → T × σ) (s : σ) (n : Nat)
    (_hn : n ≤ 32) :
    (initWith n gen s).1.length = n
    ∧ (initWith n gen s).2 = (fun t => (gen t).2)^[n] s
    ∧ (initWith n (countCalls gen) (s, 0)).2.2 = n := by
  refine ⟨initWith_fst_length gen n s, initWith_snd gen n s, ?_⟩
  rw [initWith_countCalls gen n s 0]
  omega

/-- Witness for C2 at n = 2 with a counter generator. -/
theorem c2_witness :
    (initWith 2 (fun c : Nat => (c, c + 1)) 0).1.length = 2
    ∧ (initWith 2 (countCalls (fun c : Nat => (c, c + 1))) (0, 0)).2.2 = 2 :=
  ⟨(c2_invocation_count (fun c : Nat => (c, c + 1)) 0 2 (by decide)).1,
   (c2_invocation_count (fun c : Nat => (c, c + 1)) 0 2 (by decide)).2.2⟩

/-- An index generator wrapped so that its state also records the sequence of
index arguments it has been invoked with: instrumentation for the order
property of `init_with_indices`. -/
def recordIdx {σ T : Type} (gen : σ → Nat → T × σ) : σ × List Nat → Nat → T × (σ × List Nat) :=
  fun p i => ((gen p.1 i).1, ((gen p.1 i).2, p.2 ++ [i]))

/-- The state of an index generator just before the call that receives index i,
when `init_with_indices` starts in state `s` (call j receives index j). -/
def idxState {σ T : Type} (gen : σ → Nat → T × σ) (s : σ) : Nat → σ
  | 0 => s
  | i + 1 => (gen (idxState gen s i) i).2

/-- The value produced by the `init_with_indices` call that receives index i. -/
def idxValue {σ T : Type} (gen : σ → Nat → T × σ) (s : σ) (i : Nat) : T :=
  (gen (idxState gen s i) i).1

/-- The stateful closure described by the spec for the index variant: it keeps
a counter starting at 0, calls the index generator with the current counter
value, and increments the counter by 1 after each invocation. This definition
follows the spec text; claim C5 compares `init_with_indices` against it. -/
def counterGen {σ T : Type} (f : σ → Nat → T × σ) : σ × Nat → T × (σ × Nat) :=
  fun p => ((f p.1 p.2).1, ((f p.1 p.2).2, p.2 + 1))

theorem indicesFrom_eq_counter {σ T : Type} (f : σ → Nat → T × σ) :
    ∀ (n i : Nat) (s : σ),
      (initWithIndicesFrom i n f s).1 = (initWith n (counterGen f) (s, i)).1
      ∧ (initWithIndicesFrom i n f s).2 = (initWith n (counterGen f) (s, i)).2.1 := by
  intro n
  induction n with
  | zero => intro i s; exact ⟨rfl, rfl⟩
  | succ m ih =>
    intro i s
    have h := ih (i + 1) (f s i).2
    constructor
    · show (f s i).1 :: (initWithIndicesFrom (i + 1) m f (f s i).2).1
        = (f s i).1 :: (initWith m (counterGen f) ((f s i).2, i + 1)).1
      rw [h.1]
    · show (initWithIndicesFrom (i + 1) m f (f s i).2).2
        = (initWith m (counterGen f) ((f s i).2, i + 1)).2.1
      exact h.2

theorem counter_genState {σ T : Type} (f : σ → Nat → T × σ) (s : σ) :
    ∀ i : Nat, genState (counterGen f) (s, 0) i = (idxState f s i, i) := by
  intro i
  induction i with
  | zero => rfl
  | succ j ih =>
    have h1 : genState (counterGen f) (s, 0) (j + 1)
        = (fun t => (counterGen f t).2) (genState (counterGen f) (s, 0) j) :=
      Function.iterate_succ_apply' (fun t => (counterGen f t).2) j (s, 0)
    rw [h1, ih]
    rfl

theorem initWithIndices_getElem {σ T : Type} (f : σ → Nat → T × σ) (s : σ)
    (n i : Nat) (h : i < n) :
    (initWithIndices n f s).1[i]? = some (idxValue f s i) := by
  have he := (indicesFrom_eq_counter f n 0 s).1
  unfold initWithIndices
  rw [he, initWith_getElem (counterGen f) n (s, 0) i h]
  simp [genValue, counter_genState, idxValue, counterGen]

theorem recordIdx_trace {σ T : Type} (gen : σ → Nat → T × σ) :
    ∀ (n i : Nat) (s : σ) (acc : List Nat),
      (initWithIndicesFrom i n (recordIdx gen) (s, acc)).2.2
        = acc ++ (List.range n).map (fun j => i + j) := by
  intro n
  induction n with
  | zero => intro i s acc; simp [initWithIndicesFrom]
  | succ m ih =>
    intro i s acc
    show (initWithIndicesFrom (i + 1) m (recordIdx gen) ((gen s i).2, acc ++ [i])).2.2 = _
    rw [ih (i + 1) (gen s i).2 (acc ++ [i])]
    have hfun : (fun j : Nat => i + 1 + j) = fun j : Nat => i + (j + 1) := by
      funext j; omega
    rw [List.range_succ_eq_map]
    simp [List.map_map, hfun, Function.comp]

/-- Claim C3: for every supported length n (0-32), `init_with_indices` invokes
its generator with arguments 0, 1, ..., n-1 in strictly increasing order,
exactly once each (a recording instrumentation of the generator records exactly
`List.range n`), and the invocation passed index i fills slot i. -/
theorem c3_indices_order {σ T : Type} (gen : σ → Nat → T × σ) (s : σ) (n : Nat)
    (_hn : n ≤ 32) :
    (initWithIndices n (recordIdx gen) (s, [])).2.2 = List.range n
    ∧ ∀ i : Nat, i < n → (initWithIndices n gen s).1[i]? = some (idxValue gen s i) := by
  constructor
  · have h := recordIdx_trace gen n 0 s []
    simpa using h
  · intro i hi
    exact initWithIndices_getElem gen s n i hi

/-- Witness for C3 at n = 4. -/
theorem c3_witness :
    (initWithIndices 4 (recordIdx (fun (_ : Unit) i => (i * 2, ()))) ((), [])).2.2
      = List.range 4 :=
  (c3_indices_order (fun (_ : Unit) i => (i * 2, ())) () 4 (by decide)).1

theorem indicesFrom_pure {T : Type} (f : Nat → T) :
    ∀ (n i : Nat),
      (initWithIndicesFrom i n (fun (_ : Unit) j => (f j, ())) ()).1
        = (List.range n).map (fun j => f (i + j)) := by
  intro n
  induction n with
  | zero => intro i; rfl
  | succ m ih =>
    intro i
    show f i :: (initWithIndicesFrom (i + 1) m (fun (_ : Unit) j => (f j, ())) ()).1 = _
    rw [ih (i + 1)]
    have hfun : (fun j : Nat => f (i + 1 + j)) = fun j : Nat => f (i + (j + 1)) := by
      funext j
      have : i + 1 + j = i + (j + 1) := by omega
      rw [this]
    rw [List.range_succ_eq_map]
    simp [List.map_map, hfun, Function.comp]

/-- Claim C4: for every supported length n (0-32) and every pure index
generator f, `init_with_indices` returns [f 0, f 1, ..., f (n-1)]; in
particular n = 5 with f i = i * i yields [0, 1, 4, 9, 16]. -/
theorem c4_indices_pure {T : Type} (f : Nat → T) (n : Nat) (_hn : n ≤ 32) :
    (initWithIndices n (fun (_ : Unit) i => (f i, ())) ()).1 = (List.range n).map f
    ∧ (initWithIndices 5 (fun (_ : Unit) i => (i * i, ())) ()).1 = [0, 1, 4, 9, 16] := by
  constructor
  · have h := indicesFrom_pure f n 0
    simpa [initWithIndices] using h
  · rfl

/-- Witness for C4 at n = 5 with f i = i * i. -/
theorem c4_witness :
    (initWithIndices 5 (fun (_ : Unit) i => (i * i, ())) ()).1
      = (List.range 5).map (fun i => i * i) :=
  (c4_indices_pure (fun i => i * i) 5 (by decide)).1

/-- Claim C5: for every supported length n (0-32), every starting state and
every index generator f, `init_with_indices f` returns the same array as
`init_with g` where g is the stateful closure over a counter starting at 0
that calls f with the current counter value and then increments the counter. -/
theorem c5_indices_refines_counter {σ T : Type} (f : σ → Nat → T × σ) (s : σ)
    (n : Nat) (_hn : n ≤ 32) :
    (initWithIndices n f s).1 = (initWith n (counterGen f) (s, 0)).1 :=
  (indicesFrom_eq_counter f n 0 s).1

/-- Witness for C5 at n = 4 with a stateful index generator. -/
theorem c5_witness :
    (initWithIndices 4 (fun (a : Nat) i => (a + i, a + 1)) 0).1
      = (initWith 4 (counterGen (fun (a : Nat) i => (a + i, a + 1))) (0, 0)).1 :=
  c5_indices_refines_counter (fun (a : Nat) i => (a + i, a + 1)) 0 4 (by decide)

/-
Abnormal generator termination (a Rust panic) is embedded by letting the
generator return `Option (T × sigma)`: `none` means this invocation panics.
When an operand call of the Rust array expression panics, no further operand
is evaluated, the array value is never formed, and the panic propagates, so
the construction as a whole is `none`.
-/

/-- Embedding of `init_with` under a possibly panicking generator: the result
is `none` exactly when some invocation panicked, and no invocation runs after
a panicking one. -/
def initWithPanic {σ T : Type} : Nat → (σ → Option (T × σ)) → σ → Option (List T × σ)
  | 0, _, s => some ([], s)
  | n + 1, gen, s =>
    match gen s with
    | none => none
    | some (v, s1) =>
      match initWithPanic n gen s1 with
      | none => none
      | some (l, s2) => some (v :: l, s2)

/-- Embedding of `init_with_indices` (from index `i`) under a possibly
panicking generator. -/
def initWithIndicesPanicFrom {σ T : Type} :
    Nat → Nat → (σ → Nat → Option (T × σ)) → σ → Option (List T × σ)
  | _, 0, _, s => some ([], s)
  | i, n + 1, gen, s =>
    match gen s i with
    | none => none
    | some (v, s1) =>
      match initWithIndicesPanicFrom (i + 1) n gen s1 with
      | none => none
      | some (l, s2) => some (v :: l, s2)

/-- Embedding of `init_with_indices` under a possibly panicking generator. -/
def initWithIndicesPanic {σ T : Type} (n : Nat) (gen : σ → Nat → Option (T × σ))
    (s : σ) : Option (List T × σ) :=
  initWithIndicesPanicFrom 0 n gen s

/-- The same computation as `initWithPanic`, instrumented with an observation
log: it also returns how many generator invocations were begun and the values
produced by the successful invocations (the slots written), in slot order. -/
def initWithPanicLog {σ T : Type} :
    Nat → (σ → Option (T × σ)) → σ → Option (List T × σ) × Nat × List T
  | 0, _, s => (some ([], s), 0, [])
  | n + 1, gen, s =>
    match gen s with
    | none => (none, 1, [])
    | some (v, s1) =>
      match initWithPanicLog n gen s1 with
      | (none, c, w) => (none, c + 1, v :: w)
      | (some (l, s2), c, w) => (some (v :: l, s2), c + 1, v :: w)

/-- The same computation as `initWithPanic`, instrumented with the list of
element values that the construction call itself destroys. Under Rust unwind
semantics, when an operand call of an array expression panics, the operand
temporaries already evaluated are dropped during unwinding, most recently
created first; on normal completion nothing is dropped by the expression (the
values move into the returned array). -/
def initWithDrops {σ T : Type} :
    Nat → (σ → Option (T × σ)) → σ → Option (List T × σ) × List T
  | 0, _, s => (some ([], s), [])
  | n + 1, gen, s =>
    match gen s with
    | none => (none, [])
    | some (v, s1) =>
      match initWithDrops n gen s1 with
      | (none, d) => (none, d ++ [v])
      | (some (l, s2), d) => (some (v :: l, s2), d)

/-- The generator state just before its i-th invocation under the panic model:
`none` if some earlier invocation already panicked. -/
def panicState {σ T : Type} (gen : σ → Option (T × σ)) (s : σ) : Nat → Option σ
  | 0 => some s
  | i + 1 => (panicState gen s i).bind fun t => (gen t).map Prod.snd

/-- The value produced by the i-th invocation under the panic model, if the
first i invocations succeeded and the i-th one returns normally. -/
def panicValue {σ T : Type} (gen : σ → Option (T × σ)) (s : σ) (i : Nat) : Option T :=
  (panicState gen s i).bind fun t => (gen t).map Prod.fst

/-- The values produced by invocations 0 .. k-1 under the panic model, in
invocation order (skipping none, which cannot occur when they all succeed). -/
def producedValues {σ T : Type} (gen : σ → Option (T × σ)) (s : σ) (k : Nat) : List T :=
  (List.range k).filterMap (panicValue gen s)

theorem panicState_shift {σ T : Type} (gen : σ → Option (T × σ)) (s s1 : σ) (v : T)
    (h : gen s = some (v, s1)) :
    ∀ i : Nat, panicState gen s (i + 1) = panicState gen s1 i := by
  intro i
  induction i with
  | zero => simp [panicState, h]
  | succ j ih =>
    show (panicState gen s (j + 1)).bind _ = (panicState gen s1 j).bind _
    rw [ih]

theorem panicState_none {σ T : Type} (gen : σ → Option (T × σ)) (s : σ)
    (h : gen s = none) : ∀ i : Nat, panicState gen s (i + 1) = none := by
  intro i
  induction i with
  | zero => simp [panicState, h]
  | succ j ih =>
    show (panicState gen s (j + 1)).bind _ = none
    rw [ih]
    rfl

theorem panicValue_shift {σ T : Type} (gen : σ → Option (T × σ)) (s s1 : σ) (v : T)
    (h : gen s = some (v, s1)) (i : Nat) :
    panicValue gen s (i + 1) = panicValue gen s1 i := by
  unfold panicValue
  rw [panicState_shift gen s s1 v h i]

theorem producedValues_shift {σ T : Type} (gen : σ → Option (T × σ)) (s s1 : σ) (v : T)
    (h : gen s = some (v, s1)) (k : Nat) :
    producedValues gen s (k + 1) = v :: producedValues gen s1 k := by
  unfold producedValues
  rw [List.range_succ_eq_map, List.filterMap_cons]
  have h0 : panicValue gen s 0 = some v := by simp [panicValue, panicState, h]
  rw [h0, List.filterMap_map]
  have hcomp : panicValue gen s ∘ Nat.succ = panicValue gen s1 := by
    funext i
    exact panicValue_shift gen s s1 v h i
  rw [hcomp]

theorem initWithPanicLog_fst {σ T : Type} (gen : σ → Option (T × σ)) :
    ∀ (n : Nat) (s : σ), (initWithPanicLog n gen s).1 = initWithPanic n gen s := by
  intro n
  induction n with
  | zero => intro s; rfl
  | succ m ih =>
    intro s
    cases hgs : gen s with
    | none => simp [initWithPanicLog, initWithPanic, hgs]
    | some p =>
      obtain ⟨v, s1⟩ := p
      have h := ih s1
      rcases hrec : initWithPanicLog m gen s1 with ⟨o, c, w⟩
      rw [hrec] at h
      cases o with
      | none => simp [initWithPanicLog, initWithPanic, hgs, hrec, ← h]
      | some q =>
        obtain ⟨l, s2⟩ := q
        simp [initWithPanicLog, initWithPanic, hgs, hrec, ← h]

theorem initWithDrops_fst {σ T : Type} (gen : σ → Option (T × σ)) :
    ∀ (n : Nat) (s : σ), (initWithDrops n gen s).1 = initWithPanic n gen s := by
  intro n
  induction n with
  | zero => intro s; rfl
  | succ m ih =>
    intro s
    cases hgs : gen s with
    | none => simp [initWithDrops, initWithPanic, hgs]
    | some p =>
      obtain ⟨v, s1⟩ := p
      have h := ih s1
      rcases hrec : initWithDrops m gen s1 with ⟨o, d⟩
      rw [hrec] at h
      cases o with
      | none => simp [initWithDrops, initWithPanic, hgs, hrec, ← h]
      | some q =>
        obtain ⟨l, s2⟩ := q
        simp [initWithDrops, initWithPanic, hgs, hrec, ← h]

theorem initWithPanicLog_fail {σ T : Type} (gen : σ → Option (T × σ)) :
    ∀ (k n : Nat) (s t : σ), k < n → panicState gen s k = some t → gen t = none →
      initWithPanicLog n gen s = (none, k + 1, producedValues gen s k) := by
  intro k
  induction k with
  | zero =>
    intro n s t hn hst hfail
    have hts : t = s := by
      have : some s = some t := hst
      exact (Option.some.injEq s t ▸ this).symm
    subst hts
    match n, hn with
    | m + 1, _ =>
      show initWithPanicLog (m + 1) gen t = _
      simp [initWithPanicLog, hfail, producedValues]
  | succ j ih =>
    intro n s t hn hst hfail
    match n, hn with
    | m + 1, hn =>
      cases hgs : gen s with
      | none =>
        rw [panicState_none gen s hgs j] at hst
        exact absurd hst (by simp)
      | some p =>
        obtain ⟨v, s1⟩ := p
        rw [panicState_shift gen s s1 v hgs j] at hst
        have hrec := ih m s1 t (Nat.lt_of_succ_lt_succ hn) hst hfail
        show initWithPanicLog (m + 1) gen s = _
        simp only [initWithPanicLog, hgs]
        rw [hrec, producedValues_shift gen s s1 v hgs j]

theorem initWithDrops_fail {σ T : Type} (gen : σ → Option (T × σ)) :
    ∀ (k n : Nat) (s t : σ), k < n → panicState gen s k = some t → gen t = none →
      initWithDrops n gen s = (none, (producedValues gen s k).reverse) := by
  intro k
  induction k with
  | zero =>
    intro n s t hn hst hfail
    have hts : t = s := by
      have : some s = some t := hst
      exact (Option.some.injEq s t ▸ this).symm
    subst hts
    match n, hn with
    | m + 1, _ =>
      show initWithDrops (m + 1) gen t = _
      simp [initWithDrops, hfail, producedValues]
  | succ j ih =>
    intro n s t hn hst hfail
    match n, hn with
    | m + 1, hn =>
      cases hgs : gen s with
      | none =>
        rw [panicState_none gen s hgs j] at hst
        exact absurd hst (by simp)
      | some p =>
        obtain ⟨v, s1⟩ := p
        rw [panicState_shift gen s s1 v hgs j] at hst
        have hrec := ih m s1 t (Nat.lt_of_succ_lt_succ hn) hst hfail
        show initWithDrops (m + 1) gen s = _
        simp only [initWithDrops, hgs]
        rw [hrec, producedValues_shift gen s s1 v hgs j]
        simp

theorem producedValues_length {σ T : Type} (gen : σ → Option (T × σ)) :
    ∀ (k : Nat) (s t : σ), panicState gen s k = some t →
      (producedValues gen s k).length = k := by
  intro k
  induction k with
  | zero => intro s t _; rfl
  | succ j ih =>
    intro s t h
    cases hgs : gen s with
    | none =>
      rw [panicState_none gen s hgs j] at h
      exact absurd h (by simp)
    | some p =>
      obtain ⟨v, s1⟩ := p
      rw [panicState_shift gen s s1 v hgs j] at h
      rw [producedValues_shift gen s s1 v hgs j]
      simp [ih s1 t h]

/-- Claim C6: for n = 0, both `init_with` and `init_with_indices` return the
empty array and invoke the generator zero times, for any generator, including
one whose every invocation panics: construction at length 0 always succeeds. -/
theorem c6_empty_length {σ T : Type} (gen : σ → Option (T × σ))
    (genIdx : σ → Nat → Option (T × σ)) (s : σ) :
    initWithPanic 0 gen s = some ([], s)
    ∧ initWithIndicesPanic 0 genIdx s = some ([], s)
    ∧ initWithPanicLog 0 gen s = (some ([], s), 0, []) :=
  ⟨rfl, rfl, rfl⟩

/-- Witness for C6 with a generator that panics on every invocation. -/
theorem c6_witness :
    initWithPanic 0 (fun _ : Nat => (none : Option (Nat × Nat))) 0 = some ([], 0)
    ∧ initWithIndicesPanic 0 (fun (_ : Nat) _ => (none : Option (Nat × Nat))) 0
        = some ([], 0) :=
  ⟨(c6_empty_length (fun _ : Nat => (none : Option (Nat × Nat)))
      (fun (_ : Nat) _ => (none : Option (Nat × Nat))) 0).1,
   (c6_empty_length (fun _ : Nat => (none : Option (Nat × Nat)))
      (fun (_ : Nat) _ => (none : Option (Nat × Nat))) 0).2.1⟩

/-- Claim C7: if the generator panics on its k-th invocation (0-based, after k
successful invocations), the whole construction fails: no array is returned
(`none`), the generator was invoked exactly k + 1 times (none after the
failing one), and exactly the k values for slots 0 .. k-1 had been produced
beforehand, in slot order. -/
theorem c7_fail_propagates {σ T : Type} (gen : σ → Option (T × σ)) (s t : σ)
    (n k : Nat) (hk : k < n) (hst : panicState gen s k = some t)
    (hfail : gen t = none) :
    initWithPanic n gen s = none
    ∧ (initWithPanicLog n gen s).2.1 = k + 1
    ∧ (initWithPanicLog n gen s).2.2 = producedValues gen s k
    ∧ (producedValues gen s k).length = k := by
  have h := initWithPanicLog_fail gen k n s t hk hst hfail
  have hp := initWithPanicLog_fst gen n s
  rw [h] at hp
  exact ⟨hp.symm, by rw [h], by rw [h], producedValues_length gen k s t hst⟩

/-- Witness for C7: a generator over a counter that succeeds twice (producing
10 and 11) and panics on its third invocation (k = 2), at n = 3. -/
theorem c7_witness :
    initWithPanic 3 (fun c : Nat => if c < 2 then some (c + 10, c + 1) else none) 0 = none
    ∧ (initWithPanicLog 3
        (fun c : Nat => if c < 2 then some (c + 10, c + 1) else none) 0).2.1 = 3 :=
  ⟨(c7_fail_propagates (fun c : Nat => if c < 2 then some (c + 10, c + 1) else none)
      0 2 3 2 (by decide) (by decide) (by decide)).1,
   (c7_fail_propagates (fun c : Nat => if c < 2 then some (c + 10, c + 1) else none)
      0 2 3 2 (by decide) (by decide) (by decide)).2.1⟩

/-- Counterexample to claim C8 as stated: with a generator that produces 10 and
11 and then panics on its third invocation (k = 2), the construction call does
destroy the two already-written prefix elements while unwinding (it drops 11
then 10); the drop list is not empty, so the prefix is not leaked. -/
theorem c8_counterexample :
    (initWithDrops 3 (fun c : Nat => if c < 2 then some (c + 10, c + 1) else none) 0).1
      = none
    ∧ (initWithDrops 3 (fun c : Nat => if c < 2 then some (c + 10, c + 1) else none) 0).2
      = [11, 10]
    ∧ (initWithDrops 3 (fun c : Nat => if c < 2 then some (c + 10, c + 1) else none) 0).2
      ≠ [] := by
  refine ⟨rfl, rfl, ?_⟩
  decide

/-- Claim C8 as amended: when the generator panics on invocation k, no array is
returned and the construction call destroys exactly the k already-written
prefix elements during unwinding, in reverse construction order, each exactly
once — so nothing is leaked and nothing is double-destroyed. -/
theorem c8_amended_drops {σ T : Type} (gen : σ → Option (T × σ)) (s t : σ)
    (n k : Nat) (hk : k < n) (hst : panicState gen s k = some t)
    (hfail : gen t = none) :
    (initWithDrops n gen s).1 = none
    ∧ (initWithDrops n gen s).2 = (producedValues gen s k).reverse
    ∧ (initWithDrops n gen s).2.length = k := by
  have h := initWithDrops_fail gen k n s t hk hst hfail
  refine ⟨by rw [h], by rw [h], ?_⟩
  rw [h]
  simp [producedValues_length gen k s t hst]

/-- Witness for the amended C8 at the same concrete input. -/
theorem c8_witness :
    (initWithDrops 3 (fun c : Nat => if c < 2 then some (c + 10, c + 1) else none) 0).2
      = (producedValues
          (fun c : Nat => if c < 2 then some (c + 10, c + 1) else none) 0 2).reverse :=
  (c8_amended_drops (fun c : Nat => if c < 2 then some (c + 10, c + 1) else none)
    0 2 3 2 (by decide) (by decide) (by decide)).2.1

/-- The cursor generator of the round-trip property: its state is the not yet
consumed remainder of the source sequence; each invocation returns the next
element and advances the cursor. -/
def readSeq {T : Type} [Inhabited T] : List T → T × List T :=
  fun l => (l.headI, l.tail)

theorem initWith_readSeq {T : Type} [Inhabited T] :
    ∀ (n : Nat) (src : List T), src.length = n →
      (initWith n readSeq src).1 = src := by
  intro n
  induction n with
  | zero =>
    intro src hlen
    have : src = [] := List.length_eq_zero.mp hlen
    subst this
    rfl
  | succ m ih =>
    intro src hlen
    cases src with
    | nil => exact absurd hlen (by simp)
    | cons a l =>
      show (a :: l).headI :: (initWith m readSeq (a :: l).tail).1 = a :: l
      have hl : l.length = m := by simpa using hlen
      show a :: (initWith m readSeq l).1 = a :: l
      rw [ih l hl]

/-- Claim C9: for every supported length n (0-32) and every source sequence of
length n, `init_with` with a generator that reads successive elements of the
source (advancing a cursor each call) reproduces the source exactly, element
for element, in order. -/
theorem c9_round_trip {T : Type} [Inhabited T] (src : List T) (n : Nat)
    (_hn : n ≤ 32) (hlen : src.length = n) :
    (initWith n readSeq src).1 = src :=
  initWith_readSeq n src hlen

/-- Witness for C9 on the source sequence [5, 7, 9]. -/
theorem c9_witness : (initWith 3 readSeq [5, 7, 9]).1 = [5, 7, 9] :=
  c9_round_trip [5, 7, 9] 3 (by decide) (by decide)

/-- The recursion of the `array_init!` macro (src/src/lib.rs lines 113-163):
invoked with length n and a nonempty stack of generator idents it emits
`impl InitWith<T> for [T; n]` (defining both `init_with` and
`init_with_indices`) and recurses at n - 1 with one ident fewer; the final
step emits the impl for length 0. This function collects the array lengths for
which an impl is emitted when the recursion starts at m with m idents. -/
def arrayInitLengths : Nat → List Nat
  | 0 => [0]
  | n + 1 => (n + 1) :: arrayInitLengths n

/-- src/src/lib.rs line 174 invokes `array_init!` with length 32 and 32
generator idents, so these are all the array lengths given an impl. -/
def implementedLengths : List Nat := arrayInitLengths 32

theorem mem_arrayInitLengths : ∀ (m n : Nat), n ∈ arrayInitLengths m ↔ n ≤ m := by
  intro m
  induction m with
  | zero =>
    intro n
    simp [arrayInitLengths, Nat.le_zero]
  | succ j ih =>
    intro n
    simp only [arrayInitLengths, List.mem_cons, ih]
    omega

theorem nodup_arrayInitLengths : ∀ m : Nat, (arrayInitLengths m).Nodup := by
  intro m
  induction m with
  | zero => simp [arrayInitLengths]
  | succ j ih =>
    rw [arrayInitLengths, List.nodup_cons]
    refine ⟨?_, ih⟩
    rw [mem_arrayInitLengths j (j + 1)]
    omega

/-- Claim C10: the `InitWith` trait is implemented for `[T; n]` for exactly the
lengths n = 0 through 32 (each exactly once, 33 impls in all, each impl
providing both `init_with` and `init_with_indices` for every element type T),
and for no length greater than 32. -/
theorem c10_supported_lengths :
    (∀ n : Nat, n ∈ implementedLengths ↔ n ≤ 32)
    ∧ implementedLengths.Nodup
    ∧ implementedLengths.length = 33 :=
  ⟨fun n => mem_arrayInitLengths 32 n, nodup_arrayInitLengths 32, rfl⟩

/-- Witness for C10: length 32 is implemented, length 33 is not. -/
theorem c10_witness : 32 ∈ implementedLengths ∧ 33 ∉ implementedLengths :=
  ⟨(c10_supported_lengths.1 32).mpr (by decide),
   fun h => absurd ((c10_supported_lengths.1 33).mp h) (by decide)⟩
